import Mathlib

/-!
Verification of the google-keep-notes-parser core: a shallow embedding of the
parser registry and the four note extractors (Generic, HackerNews, TimeEntry,
Training), with theorems about selection order, extraction, sorting, state
invariants and error behaviour.

Python strings are modelled as `List Char` (`Str`); machine-level regular
expressions are modelled by equivalent explicit character scans, following the
concrete patterns in the source.  The JSON-Schema validator and the schema
files are external to the repository and are treated as an oracle parameter.
-/

/-- Characters matched by Python's ASCII whitespace class and stripped by
`str.strip` on the ASCII inputs this pipeline handles. -/
def isPyWs (c : Char) : Bool :=
  c = ' ' || c = '\t' || c = '\n' || c = '\r' || c = '\x0b' || c = '\x0c'

/-- Python strings, modelled as lists of characters. -/
abbrev Str := List Char

/-- Python `str.lstrip()`. -/
def lstrip (s : Str) : Str := s.dropWhile isPyWs

/-- Python `str.rstrip()`. -/
def rstrip (s : Str) : Str := (s.reverse.dropWhile isPyWs).reverse

/-- Python `str.strip()`. -/
def pystrip (s : Str) : Str := rstrip (lstrip s)

/-- Python `text.split(chr(10))`: split on every newline, keeping empty
pieces; the split of the empty string is `[[]]`. -/
def splitNL : Str → List Str
  | [] => [[]]
  | c :: cs =>
    if c = '\n' then [] :: splitNL cs
    else
      match splitNL cs with
      | l :: ls => (c :: l) :: ls
      | [] => [[c]]

/-- `len(line) - len(line.lstrip())`: the count of leading whitespace. -/
def leadingWs (s : Str) : Nat := (s.takeWhile isPyWs).length

/-- Numeric value of a digit string, as computed by Python `int` on the
all-digit substrings the regular expressions guarantee. -/
def digitsToNat (ds : Str) : Nat := ds.foldl (fun acc c => 10 * acc + (c.toNat - 48)) 0

/-- Lexicographic string comparison by code point, as used by Python `<=` on
`str` and hence by `list.sort(key=...)` over string keys. -/
def charListLe : Str → Str → Bool
  | [], _ => true
  | _ :: _, [] => false
  | a :: as, b :: bs => if a = b then charListLe as bs else decide (a < b)

/-- Python `repr` of one string (the time strings involved contain no quote
characters), written with an explicit code-39 quote character. -/
def pyQuote (s : Str) : Str := Char.ofNat 39 :: s ++ [Char.ofNat 39]

/-- Comma-space-joined sequence of Python string reprs. -/
def pyReprJoin : List Str → Str
  | [] => []
  | [x] => pyQuote x
  | x :: xs => pyQuote x ++ ',' :: ' ' :: pyReprJoin xs

/-- Python `repr` of a list of strings, as interpolated by an f-string. -/
def pyStrListRepr (xs : List Str) : Str := '[' :: pyReprJoin xs ++ [']']

/-- The `timestamps` sub-dictionary of a note, with `get(key, str())`
defaulting. -/
structure NoteTimestamps where
  created : Str := []
  edited : Str := []

/-- A mapping-shaped note record: the input dictionaries the extractors
consume, with every field defaulting to empty as in `note_data.get`.
Labels are already stringified (`str(label)` in the source). -/
structure Note where
  id : Str := []
  title : Str := []
  text : Str := []
  labels : List Str := []
  timestamps : NoteTimestamps := {}

/-! ## TimeEntryParser (src/parsers/time_entry_parser.py) -/

/-- Matcher for `TIME_CODE_PATTERN`, the anchored regular expression
matching optional leading whitespace, an optional checkbox glyph, optional
whitespace, a greedy 3-or-4-digit group, mandatory whitespace and a nonempty
trailing group, applied to `line.strip()` as in the source.  Returns the
digit group and the trailing group when the pattern matches. -/
def timeCodeMatch (line : Str) : Option (Str × Str) :=
  let s := pystrip line
  let s1 :=
    match s with
    | c :: rest => if c = '☐' || c = '☑' then rest else s
    | [] => s
  let s2 := s1.dropWhile isPyWs
  let ds := s2.takeWhile Char.isDigit
  let rest := s2.dropWhile Char.isDigit
  if ds.length = 3 || ds.length = 4 then
    match rest with
    | c :: _ =>
      if isPyWs c then
        let r2 := rest.dropWhile isPyWs
        if r2.isEmpty then none else some (ds, r2)
      else none
    | [] => none
  else none

/-- `TimeEntryParser._is_valid_time_code`: a 3-digit code splits 1+2, a
4-digit code splits 2+2, and the code is valid when hours are at most 23 and
minutes at most 59. -/
def isValidTimeCode (tc : Str) : Bool :=
  if tc.length = 3 then
    decide (digitsToNat (tc.take 1) ≤ 23 ∧ digitsToNat (tc.drop 1) ≤ 59)
  else if tc.length = 4 then
    decide (digitsToNat (tc.take 2) ≤ 23 ∧ digitsToNat (tc.drop 2) ≤ 59)
  else false

/-- `TimeEntryParser._parse_time_code`: canonical zero-padded `HH:MM`. -/
def parseTimeCode (tc : Str) : Str :=
  if tc.length = 3 then
    (if (tc.take 1).length = 1 then '0' :: tc.take 1 else tc.take 1) ++ ':' :: tc.drop 1
  else if tc.length = 4 then tc.take 2 ++ ':' :: tc.drop 2
  else []

/-- One line of the per-line scan in `can_parse` and
`_extract_time_entries`: the line matches the time-code pattern and its code
is valid. -/
def timeEntryLineOk (line : Str) : Bool :=
  match timeCodeMatch line with
  | some (tc, _) => isValidTimeCode tc
  | none => false

/-- `TimeEntryParser.can_parse`: false on empty text, otherwise true when at
least two lines of the stripped text match with a valid code. -/
def timeEntryCanParse (n : Note) : Bool :=
  if n.text.isEmpty then false
  else decide (2 ≤ (splitNL (pystrip n.text)).countP timeEntryLineOk)

/-- `TimeEntryParser._extract_date_from_timestamp`.  The try-branch delegates
to Python's `datetime.fromisoformat` (standard library, external to this
repository); on well-formed ISO-8601 timestamps its `strftime` result equals
the date prefix before the `T` or space separator, which is exactly what the
except-branch computes by naive splitting, so both branches are modelled by
the split. -/
def extractDateFromTimestamp (ts : Str) : Str :=
  if ts.isEmpty then []
  else if ts.contains 'T' then ts.takeWhile (fun c => c ≠ 'T')
  else ts.takeWhile (fun c => c ≠ ' ')

/-- One entry dictionary produced by `_extract_time_entries`. -/
structure TimeEntryRec where
  timestamp : Str
  time : Str
  date : Str
  activity : Str
  raw_line : Str
deriving DecidableEq

/-- Builds the entry dictionary for one matching line. -/
def mkTimeEntry (base_date time_str activity line : Str) : TimeEntryRec where
  timestamp := if base_date.isEmpty then time_str ++ (":00").toList
               else base_date ++ 'T' :: time_str ++ (":00").toList
  time := time_str
  date := base_date
  activity := activity
  raw_line := pystrip line

/-- The collection loop of `_extract_time_entries`: the entries of the
matching lines with valid codes, in line order, before sorting.  The
source's `original_order` list equals the `time` fields of this list. -/
def collectTimeEntries (text created : Str) : List TimeEntryRec :=
  let base_date := extractDateFromTimestamp created
  (splitNL (pystrip text)).filterMap fun line =>
    match timeCodeMatch line with
    | some (tc, act) =>
      if isValidTimeCode tc then
        some (mkTimeEntry base_date (parseTimeCode tc) (pystrip act) line)
      else none
    | none => none

/-- Sort key order of `entries.sort(key=lambda x: x[time])`. -/
def teLe (a b : TimeEntryRec) : Prop := charListLe a.time b.time = true

instance : DecidableRel teLe := fun a b =>
  inferInstanceAs (Decidable (charListLe a.time b.time = true))

/-- The out-of-order warning message built by `_extract_time_entries`, with
both orderings interpolated as Python list reprs. -/
def outOfOrderWarning (original_order sorted_order : List Str) : Str :=
  ("Time entries are out of chronological order. Original order: ").toList
    ++ pyStrListRepr original_order
    ++ (", Sorted order: ").toList ++ pyStrListRepr sorted_order

/-- `TimeEntryParser._extract_time_entries`: collect entries in line order,
sort them ascending by time string (Python's sort is stable; modelled by
insertion sort, which is also stable), and emit one warning exactly when the
sorted time order differs from the original line order. -/
def extractTimeEntries (text created : Str) : List TimeEntryRec × List Str :=
  let entries0 := collectTimeEntries text created
  let entries := List.insertionSort teLe entries0
  let original_order := entries0.map (fun e => e.time)
  let sorted_order := entries.map (fun e => e.time)
  (entries,
    if original_order ≠ sorted_order then [outOfOrderWarning original_order sorted_order]
    else [])

/-- Result record of `TimeEntryParser.parse`. -/
structure TimeParseResult where
  note_id : Str
  title : Str
  date : Str
  created : Str
  last_updated : Str
  time_entries : List TimeEntryRec
  raw_text : Str
  warnings : List Str

/-- `TimeEntryParser.parse`. -/
def timeEntryParse (n : Note) : TimeParseResult :=
  let created := n.timestamps.created
  let p := extractTimeEntries n.text created
  { note_id := n.id
    title := n.title
    date := extractDateFromTimestamp created
    created := created
    last_updated := n.timestamps.edited
    time_entries := p.1
    raw_text := n.text
    warnings := p.2 }

/-! ## HackerNewsParser (src/parsers/hackernews_parser.py) -/

/-- Consume an exact literal from the front of a string. -/
def dropLit (lit s : Str) : Option Str :=
  if s.take lit.length = lit then some (s.drop lit.length) else none

/-- One `HNLink` dataclass value. -/
structure HNLink where
  url : Str
  item_id : Str
deriving DecidableEq

/-- Matcher for `HN_URL_PATTERN` at the start of `s`: literal `http`, an
optional `s`, the literal host-and-path part, then one or more digits
(greedy).  Returns the whole match, the digit group and the remaining
suffix. -/
def matchHNAt (s : Str) : Option (Str × Str × Str) :=
  match dropLit ("http").toList s with
  | none => none
  | some s1 =>
    let s2 :=
      match s1 with
      | c :: r => if c = 's' then r else s1
      | [] => s1
    match dropLit ("://news.ycombinator.com/item?id=").toList s2 with
    | none => none
    | some s3 =>
      let ds := s3.takeWhile Char.isDigit
      if ds.isEmpty then none
      else
        let rest := s3.dropWhile Char.isDigit
        some (s.take (s.length - rest.length), ds, rest)

/-- `re.finditer` scan for HN item URLs: leftmost matches, non-overlapping,
in text order (fuel-indexed structural recursion; the fuel is the text
length, an upper bound on the number of scan steps). -/
def scanHNAux : Nat → Str → List HNLink
  | 0, _ => []
  | _ + 1, [] => []
  | fuel + 1, c :: rest =>
    match matchHNAt (c :: rest) with
    | some (url, ds, r) => ⟨url, ds⟩ :: scanHNAux fuel r
    | none => scanHNAux fuel rest

/-- `HackerNewsParser._extract_hn_urls`. -/
def extractHNUrls (text : Str) : List HNLink := scanHNAux text.length text

/-- `HackerNewsParser._extract_hn_urls_from_title_and_body`: all matches
from the title, then all matches from the body, duplicates kept. -/
def extractHNUrlsFromTitleAndBody (title text : Str) : List HNLink :=
  extractHNUrls title ++ extractHNUrls text

/-- Python `\w` word characters (ASCII). -/
def wordChar (c : Char) : Bool := c.isAlphanum || c = '_'

/-- Matcher for `HASHTAG_PATTERN` at the start of `s`: `#` then one or more
word characters (greedy). -/
def matchHashtagAt (s : Str) : Option (Str × Str) :=
  match s with
  | '#' :: r =>
    let w := r.takeWhile wordChar
    if w.isEmpty then none else some (w, r.dropWhile wordChar)
  | _ => none

/-- `re.finditer` scan for hashtag labels. -/
def scanHashtagsAux : Nat → Str → List Str
  | 0, _ => []
  | _ + 1, [] => []
  | fuel + 1, c :: rest =>
    match matchHashtagAt (c :: rest) with
    | some (w, r) => w :: scanHashtagsAux fuel r
    | none => scanHashtagsAux fuel rest

/-- `HackerNewsParser._extract_hashtag_labels`. -/
def extractHashtagLabels (text : Str) : List Str := scanHashtagsAux text.length text

/-- `HackerNewsParser.can_parse`: an exact `Download-HN` label, or an HN
item URL in body or title. -/
def hnCanParse (n : Note) : Bool :=
  n.labels.any (fun l => l = ("Download-HN").toList)
    || !(extractHNUrls n.text).isEmpty || !(extractHNUrls n.title).isEmpty

/-- Result record of `HackerNewsParser.parse`. -/
structure HNParsedNote where
  note_id : Str
  title : Str
  url : Str
  item_id : Str
  labels : List Str
  description : Str
  hn_links : List HNLink
deriving DecidableEq

/-- `HackerNewsParser.parse`. -/
def hnParse (n : Note) : HNParsedNote :=
  let hn_urls := extractHNUrlsFromTitleAndBody n.title n.text
  { note_id := n.id
    title := n.title
    url := match hn_urls with | [] => [] | l :: _ => l.url
    item_id := match hn_urls with | [] => [] | l :: _ => l.item_id
    labels := n.labels ++ extractHashtagLabels n.text
    description := n.text
    hn_links := hn_urls }

/-! ## GenericNotesParser (src/parsers/generic_notes_parser.py) -/

/-- The negated character class of `URL_PATTERN`: everything except
whitespace, angle brackets, double quote, single quote (code 39), closing
paren, closing brace and closing bracket. -/
def urlBodyChar (c : Char) : Bool :=
  !(isPyWs c || c = '<' || c = '>' || c = '"' || c = Char.ofNat 39
    || c = ')' || c = '}' || c = ']')

/-- First alternative of `URL_PATTERN` at the start of `s`: `http`, optional
`s`, `://`, then one or more body characters (greedy). -/
def matchHttpAt (s : Str) : Option (Str × Str) :=
  match dropLit ("http").toList s with
  | none => none
  | some s1 =>
    let s2 :=
      match s1 with
      | c :: r => if c = 's' then r else s1
      | [] => s1
    match dropLit ("://").toList s2 with
    | none => none
    | some s3 =>
      if (s3.takeWhile urlBodyChar).isEmpty then none
      else
        let rest := s3.dropWhile urlBodyChar
        some (s.take (s.length - rest.length), rest)

/-- Second alternative of `URL_PATTERN`: bare `www.` then one or more body
characters (greedy). -/
def matchWwwAt (s : Str) : Option (Str × Str) :=
  match dropLit ("www.").toList s with
  | none => none
  | some s1 =>
    if (s1.takeWhile urlBodyChar).isEmpty then none
    else
      let rest := s1.dropWhile urlBodyChar
      some (s.take (s.length - rest.length), rest)

/-- `URL_PATTERN` at the start of `s`: the alternation tries the `http`
branch first, then the `www.` branch. -/
def matchURLAt (s : Str) : Option (Str × Str) :=
  match matchHttpAt s with
  | some r => some r
  | none => matchWwwAt s

/-- `re.finditer` scan for URL matches, in text order, duplicates kept. -/
def scanURLsAux : Nat → Str → List Str
  | 0, _ => []
  | _ + 1, [] => []
  | fuel + 1, c :: rest =>
    match matchURLAt (c :: rest) with
    | some (u, r) => u :: scanURLsAux fuel r
    | none => scanURLsAux fuel rest

/-- All URL matches of `text`, in occurrence order, duplicates kept. -/
def allURLMatches (text : Str) : List Str := scanURLsAux text.length text

/-- The seen-set deduplication loop inside
`GenericNotesParser._extract_links`: keep a match when it has not been seen
before, remembering it afterwards. -/
def dedupLinksAux (seen : List Str) : List Str → List Str
  | [] => []
  | l :: ls =>
    if seen.contains l then dedupLinksAux seen ls
    else l :: dedupLinksAux (l :: seen) ls

/-- `GenericNotesParser._extract_links`. -/
def extractLinks (text : Str) : List Str := dedupLinksAux [] (allURLMatches text)

/-- `GenericNotesParser.can_parse`: any mapping-shaped note is accepted. -/
def genericCanParse (_ : Note) : Bool := true

/-- Spec-side characterization of first-seen order, following the spec's
words for the link-list invariant (duplicate-free, first occurrence kept, in
occurrence order); to be compared with the source-shaped `extractLinks`. -/
def firstSeenOrder : List Str → List Str
  | [] => []
  | x :: xs => x :: firstSeenOrder (xs.filter (fun y => y ≠ x))
termination_by l => l.length
decreasing_by
  simp_wf
  exact Nat.lt_succ_of_le (List.length_filter_le _ _)

/-! ## TrainingParser (src/parsers/training_parser.py) -/

/-- The ordered abbreviation table `EXERCISE_PATTERNS` (Python dicts
preserve declaration order; iteration order is semantically significant). -/
def EXERCISE_PATTERNS : List (Str × Str) :=
  [(("Bp").toList, ("Bench Press").toList),
   (("Mr").toList, ("Machine Row").toList),
   (("Ms").toList, ("Machine Squat").toList),
   (("Sq").toList, ("Squat").toList),
   (("Dl").toList, ("Deadlift").toList),
   (("Pu").toList, ("Pull-up").toList),
   (("Dip").toList, ("Dip").toList),
   (("Row").toList, ("Row").toList),
   (("Curl").toList, ("Curl").toList),
   (("Press").toList, ("Press").toList)]

/-- Case-insensitive word-bounded occurrence of `abbr` at index `i` of
`line`, the semantics of `re.search` with a word-boundary-wrapped literal
under `re.IGNORECASE`: the lowered characters agree and the neighbouring
characters (when they exist) are not word characters. -/
def matchesAbbrAt (abbr line : Str) (i : Nat) : Bool :=
  ((line.drop i).take abbr.length).map Char.toLower = abbr.map Char.toLower
    && (decide (i = 0) || !wordChar (line.getD (i - 1) ' '))
    && (decide (line.length ≤ i + abbr.length) || !wordChar (line.getD (i + abbr.length) ' '))

/-- `re.search` existence for a word-bounded abbreviation in a line. -/
def hasAbbrMatch (abbr line : Str) : Bool :=
  (List.range (line.length + 1)).any (fun i => matchesAbbrAt abbr line i)

/-- The inner abbreviation loop of `_extract_exercises` (and the order of
`can_parse`'s `any`): the first table entry, in declaration order, with a
word-bounded case-insensitive match on the line. -/
def findFirstAbbr (line : Str) : Option (Str × Str) :=
  EXERCISE_PATTERNS.find? (fun p => hasAbbrMatch p.1 line)

/-- One `SetData` dataclass value.  The source stores `float(weight)`; no
code path inspects the numeric value, so the weight is modelled as the
matched numeral text. -/
structure SetData where
  set : Nat
  reps : Nat
  weight : Str
deriving DecidableEq

/-- The `\s*[x×]\s*` separator of `SET_REP_WEIGHT_PATTERN`. -/
def matchSetX (s : Str) : Option Str :=
  match s.dropWhile isPyWs with
  | c :: r => if c = 'x' || c = '×' then some (r.dropWhile isPyWs) else none
  | [] => none

/-- Matcher for `SET_REP_WEIGHT_PATTERN` at the start of `s`: greedy digit
group, separator, greedy digit group, separator, greedy digit group with an
optional `.digits` fraction.  Returns the set record and the remaining
suffix. -/
def matchTripleAt (s : Str) : Option (SetData × Str) :=
  let d1 := s.takeWhile Char.isDigit
  if d1.isEmpty then none
  else
    match matchSetX (s.dropWhile Char.isDigit) with
    | none => none
    | some s2 =>
      let d2 := s2.takeWhile Char.isDigit
      if d2.isEmpty then none
      else
        match matchSetX (s2.dropWhile Char.isDigit) with
        | none => none
        | some s3 =>
          let d3 := s3.takeWhile Char.isDigit
          if d3.isEmpty then none
          else
            match s3.dropWhile Char.isDigit with
            | '.' :: r4 =>
              let f := r4.takeWhile Char.isDigit
              if f.isEmpty then some (⟨digitsToNat d1, digitsToNat d2, d3⟩, '.' :: r4)
              else
                some (⟨digitsToNat d1, digitsToNat d2, d3 ++ '.' :: f⟩,
                  r4.dropWhile Char.isDigit)
            | r => some (⟨digitsToNat d1, digitsToNat d2, d3⟩, r)

/-- `re.finditer` scan for set triples: leftmost, non-overlapping. -/
def scanSetsAux : Nat → Str → List SetData
  | 0, _ => []
  | _ + 1, [] => []
  | fuel + 1, c :: rest =>
    match matchTripleAt (c :: rest) with
    | some (sd, r) => sd :: scanSetsAux fuel r
    | none => scanSetsAux fuel rest

/-- `TrainingParser._extract_sets` (also the `re.search` existence test of
`can_parse`, which holds exactly when this list is nonempty). -/
def extractSets (line : Str) : List SetData := scanSetsAux line.length line

/-- `TrainingParser._normalize_checkboxes`: the two glyph replacements are
independent (neither replacement text contains the other glyph), so both
`str.replace` passes are one character-wise expansion. -/
def normalizeCheckboxes (text : Str) : Str :=
  text.flatMap fun c =>
    if c = '☐' then ("- [ ] ").toList
    else if c = '☑' then ("- [x] ").toList
    else [c]

/-- `TrainingParser.can_parse`. -/
def trainingCanParse (n : Note) : Bool :=
  if n.text.isEmpty then false
  else
    let text := normalizeCheckboxes n.text
    (EXERCISE_PATTERNS.any (fun p => hasAbbrMatch p.1 text))
      && !(extractSets text).isEmpty

/-- One `ExerciseData` dataclass value. -/
structure ExerciseData where
  exercise_name : Str
  abbreviation : Str
  sets : List SetData
  total_sets : Nat
  raw_line : Str
deriving DecidableEq

/-- The loop state of `_extract_exercises`: the insertion-ordered
`exercises_dict`, the carried `current_exercise` and `previous_indent`. -/
structure TrainState where
  exercises_dict : List (Str × ExerciseData)
  current_exercise : Option Str
  previous_indent : Nat

/-- Full-name lookup `EXERCISE_PATTERNS[abbr]`. -/
def lookupFullName (abbr : Str) : Str :=
  ((EXERCISE_PATTERNS.find? (fun p => p.1 = abbr)).map (fun p => p.2)).getD []

/-- The `exercises_dict` update of `_extract_exercises`: extend an existing
entry (appending sets, recomputing `total_sets`, newline-joining the raw
line) or insert a fresh entry at the end (first-seen order). -/
def updateExercisesDict (d : List (Str × ExerciseData)) (abbr full_name : Str)
    (sets : List SetData) (line : Str) : List (Str × ExerciseData) :=
  match d with
  | [] => [(abbr, ⟨full_name, abbr, sets, sets.length, pystrip line⟩)]
  | (k, e) :: rest =>
    if k = abbr then
      (k, { e with
              sets := e.sets ++ sets,
              total_sets := (e.sets ++ sets).length,
              raw_line := e.raw_line ++ '\n' :: pystrip line }) :: rest
    else (k, e) :: updateExercisesDict rest abbr full_name sets line

/-- The body of the `for i, line in enumerate(lines)` loop of
`_extract_exercises`: abbreviation match (first table entry wins, updating
`current_exercise` and `previous_indent`), set extraction and attribution,
then the dedent-clearing rule.  When no abbreviation matched,
`previous_indent` was not updated this iteration, so reading it from the
intermediate state is exact. -/
def processLine (st : TrainState) (line : Str) : TrainState :=
  let current_indent := leadingWs line
  let matched := findFirstAbbr line
  let st1 :=
    match matched with
    | some p => { st with current_exercise := some p.1, previous_indent := current_indent }
    | none => st
  let sets := extractSets line
  let st2 :=
    if sets.isEmpty then st1
    else
      match
        (match matched with
         | some p => some p.1
         | none => st1.current_exercise) with
      | some abbr =>
        { st1 with exercises_dict :=
            updateExercisesDict st1.exercises_dict abbr (lookupFullName abbr) sets line }
      | none => st1
  if decide (current_indent ≤ st1.previous_indent) && matched.isNone && sets.isEmpty then
    { st2 with current_exercise := none }
  else st2

/-- The initial loop state of `_extract_exercises`. -/
def initTrainState : TrainState := ⟨[], none, 0⟩

/-- The full line scan of `_extract_exercises` over already-split lines. -/
def runTrainLines (lines : List Str) : TrainState :=
  lines.foldl processLine initTrainState

/-- `TrainingParser._extract_exercises`: the dict values in insertion
order. -/
def extractExercises (text : Str) : List ExerciseData :=
  (runTrainLines (splitNL text)).exercises_dict.map (fun p => p.2)

/-- One timestamp match of the completed-activity scan, with its absolute
character span. -/
structure TSMatch where
  str : Str
  startIdx : Nat
  stopIdx : Nat
deriving DecidableEq

/-- Shape test for the fixed-width timestamp pattern
`\d{4}-\d{2}-\d{2}[T\s]\d{2}:\d{2}:\d{2}` at the start of `s` (the separator
class admits `T` or any whitespace character). -/
def isTsAt (s : Str) : Bool :=
  match s with
  | q1 :: q2 :: q3 :: q4 :: q5 :: q6 :: q7 :: q8 :: q9 :: q10 :: q11 :: q12 :: q13
      :: q14 :: q15 :: q16 :: q17 :: q18 :: q19 :: _ =>
    q1.isDigit && q2.isDigit && q3.isDigit && q4.isDigit && q5 = '-'
      && q6.isDigit && q7.isDigit && q8 = '-' && q9.isDigit && q10.isDigit
      && (q11 = 'T' || isPyWs q11) && q12.isDigit && q13.isDigit && q14 = ':'
      && q15.isDigit && q16.isDigit && q17 = ':' && q18.isDigit && q19.isDigit
  | _ => false

/-- `re.finditer` scan for embedded timestamps, tracking absolute spans. -/
def scanTsAux : Nat → Str → Nat → List TSMatch
  | 0, _, _ => []
  | _ + 1, [], _ => []
  | fuel + 1, c :: rest, i =>
    if isTsAt (c :: rest) then
      ⟨(c :: rest).take 19, i, i + 19⟩ :: scanTsAux fuel ((c :: rest).drop 19) (i + 19)
    else scanTsAux fuel rest (i + 1)

/-- All embedded timestamp matches of `text`. -/
def scanTimestamps (text : Str) : List TSMatch := scanTsAux text.length text 0

/-- `created_timestamp.split(chr(46))[0].replace(chr(32), chr(84))`: the
creation timestamp truncated before the first dot, spaces turned into `T`.
This is also the normalization the spec describes for timestamp
comparison. -/
def normalizeTimestamp (s : Str) : Str :=
  (s.takeWhile (fun c => c ≠ '.')).map (fun c => if c = ' ' then 'T' else c)

/-- The source line holding a timestamp match: from just after the previous
newline (the source slices from the newline index itself and strips) to the
next newline after the match, stripped. -/
def sourceLineOf (text : Str) (m : TSMatch) : Str :=
  let pre := text.take m.startIdx
  let line_start :=
    match pre.reverse.findIdx? (fun c => c = '\n') with
    | some j => pre.length - 1 - j
    | none => 0
  let line_end :=
    m.stopIdx + (((text.drop m.stopIdx).findIdx? (fun c => c = '\n')).getD
      (text.drop m.stopIdx).length)
  pystrip ((text.take line_end).drop line_start)

/-- One `CompletedActivity` dataclass value. -/
structure CompletedActivity where
  timestamp : Str
  activity : Str
deriving DecidableEq

/-- The match loop of `_extract_completed_activities`: each matched
timestamp is kept when it differs from the normalized creation timestamp
(the match itself is compared verbatim), paired with its source line. -/
def matchedActivities (text created : Str) : List CompletedActivity :=
  (scanTimestamps text).foldl
    (fun acc m =>
      if m.str ≠ normalizeTimestamp created then acc ++ [⟨m.str, sourceLineOf text m⟩]
      else acc) []

/-- `TrainingParser._extract_completed_activities`, including the synthesized
fallback activity. -/
def extractCompletedActivities (text created : Str) : List CompletedActivity :=
  let activities := matchedActivities text created
  if activities.isEmpty && !created.isEmpty then
    [⟨created, ("Workout logged").toList⟩]
  else activities

/-- Result record of `TrainingParser.parse`. -/
structure WorkoutData where
  note_id : Str
  title : Str
  workout_date : Str
  last_updated : Str
  exercises : List ExerciseData
  completed_activities : List CompletedActivity
  raw_text : Str

/-- `TrainingParser.parse`. -/
def trainingParse (n : Note) : WorkoutData :=
  let text := normalizeCheckboxes n.text
  { note_id := n.id
    title := n.title
    workout_date := n.timestamps.created
    last_updated := n.timestamps.edited
    exercises := extractExercises text
    completed_activities := extractCompletedActivities text n.timestamps.created
    raw_text := text }

/-! ## ParserRegistry (src/parsers/base.py) and the batch driver
(src/parse_notes.py) -/

/-- The schema resources each extractor names; the schema documents live
outside the repository source and are consumed through the validator
oracle. -/
inductive SchemaId where
  | hackernews
  | timeEntry
  | training
  | generic
deriving DecidableEq

/-- The union of the structured records the registered extractors return. -/
inductive ParsedRecord where
  | hn : HNParsedNote → ParsedRecord
  | time : TimeParseResult → ParsedRecord
  | workout : WorkoutData → ParsedRecord

/-- One registered parser class: its `can_parse` predicate, its `parse`
extraction and its schema resource (the registry instantiates the stateless
class before each use, so a class is modelled by its behaviour). -/
structure Extractor where
  canHandle : Note → Bool
  extract : Note → ParsedRecord
  schemaId : SchemaId

/-- The typed failures of `ParserRegistry`: the no-parser `ValueError` of
`get_parser` and the schema-mismatch `ValueError` of `parse`, carrying the
validator's message. -/
inductive RegistryError where
  | noMatchingExtractor
  | schemaViolation (message : Str)
deriving DecidableEq

/-- `ParserRegistry.get_parser`: first registered parser accepting the
note. -/
def getParser : List Extractor → Note → Option Extractor
  | [], _ => none
  | p :: ps, n => if p.canHandle n then some p else getParser ps n

/-- `ParserRegistry.parse`: select, extract, validate against the selected
extractor's schema through the external validator oracle (`jsonschema`),
returning the record or the typed failure. -/
def registryParse (validate : SchemaId → ParsedRecord → Option Str)
    (regs : List Extractor) (n : Note) : Except RegistryError ParsedRecord :=
  match getParser regs n with
  | none => Except.error RegistryError.noMatchingExtractor
  | some ex =>
    let parsed := ex.extract n
    match validate ex.schemaId parsed with
    | some msg => Except.error (RegistryError.schemaViolation msg)
    | none => Except.ok parsed

/-- The HackerNews parser class as registered. -/
def hnExtractor : Extractor :=
  ⟨hnCanParse, fun n => ParsedRecord.hn (hnParse n), SchemaId.hackernews⟩

/-- The TimeEntry parser class as registered. -/
def timeEntryExtractor : Extractor :=
  ⟨timeEntryCanParse, fun n => ParsedRecord.time (timeEntryParse n), SchemaId.timeEntry⟩

/-- The Training parser class as registered. -/
def trainingExtractor : Extractor :=
  ⟨trainingCanParse, fun n => ParsedRecord.workout (trainingParse n), SchemaId.training⟩

/-- The registry assembled by `main` in src/parse_notes.py: HackerNews,
TimeEntry and Training, in that registration order; the Generic catch-all is
not registered. -/
def mainExtractors : List Extractor := [hnExtractor, timeEntryExtractor, trainingExtractor]

/-- A mapping-shaped note with empty text: every field defaulted. -/
def emptyNote : Note := {}

/-- Declaration-order characterization of the code's `previous_indent`:
the leading-whitespace count of the most recent line with an
abbreviation-table match, 0 when there is none. -/
def lastAbbrIndent (lines : List Str) : Nat :=
  match (lines.filter (fun l => (findFirstAbbr l).isSome)).getLast? with
  | some l => leadingWs l
  | none => 0

/-- Claim-side state description, following the spec's words: the
leading-whitespace count of the most recent line that established or
continued an exercise context, i.e. matched an abbreviation-table entry or
carried set-triples. -/
def claimLastContextIndent (lines : List Str) : Nat :=
  match (lines.filter
      (fun l => (findFirstAbbr l).isSome || !(extractSets l).isEmpty)).getLast? with
  | some l => leadingWs l
  | none => 0

/-- The two-link HackerNews example note: one HN item URL in the title, one
in the body. -/
def hnNote : Note :=
  { title := ("https://news.ycombinator.com/item?id=11111").toList
    text := ("https://news.ycombinator.com/item?id=22222").toList }

/-! ## Theorems -/

/-- Totality of the Python lexicographic string order. -/
theorem charListLe_total : ∀ a b : Str, charListLe a b = true ∨ charListLe b a = true := by
  intro a
  induction a with
  | nil => intro b; left; rfl
  | cons x xs ih =>
    intro b
    match b with
    | [] => right; rfl
    | y :: ys =>
      by_cases hxy : x = y
      · subst hxy
        rcases ih ys with h | h
        · left; simp [charListLe, h]
        · right; simp [charListLe, h]
      · rcases lt_trichotomy x y with h | h | h
        · left; simp [charListLe, hxy, h]
        · exact absurd h hxy
        · right; simp [charListLe, Ne.symm hxy, h]

/-- Transitivity of the Python lexicographic string order. -/
theorem charListLe_trans :
    ∀ a b c : Str, charListLe a b = true → charListLe b c = true →
      charListLe a c = true := by
  intro a
  induction a with
  | nil => intro b c _ _; rfl
  | cons x xs ih =>
    intro b c hab hbc
    match b, c with
    | [], _ => simp [charListLe] at hab
    | _ :: _, [] => simp [charListLe] at hbc
    | y :: ys, z :: zs =>
      by_cases hxy : x = y <;> by_cases hyz : y = z
      · subst hxy; subst hyz
        simp only [charListLe, if_pos rfl] at hab hbc ⊢
        exact ih ys zs hab hbc
      · subst hxy
        simp only [charListLe, if_pos rfl, if_neg hyz] at hbc ⊢
        exact hbc
      · subst hyz
        simp only [charListLe, if_neg hxy] at hab ⊢
        exact hab
      · simp only [charListLe, if_neg hxy, if_neg hyz, decide_eq_true_eq] at hab hbc
        have hxz : x < z := lt_trans hab hbc
        simp [charListLe, ne_of_lt hxz, hxz]

instance : IsTotal TimeEntryRec teLe :=
  ⟨fun a b => charListLe_total a.time b.time⟩

instance : IsTrans TimeEntryRec teLe :=
  ⟨fun a b c => charListLe_trans a.time b.time c.time⟩

/-- C3: `_extract_time_entries` emits exactly the matching lines' entries,
sorted ascending by the zero-padded time string, and emits exactly one
warning — carrying both orderings as Python list reprs — precisely when the
sorted time order differs from the original line order; on the spec's
three-line example the times sort to 06:37, 10:53, 14:20 with one warning
listing both orderings. -/
theorem timeEntry_extract_sorted_and_warning :
    (∀ text created : Str,
        List.Sorted teLe (extractTimeEntries text created).1
        ∧ (extractTimeEntries text created).1.Perm (collectTimeEntries text created)
        ∧ (extractTimeEntries text created).2 =
            (if (collectTimeEntries text created).map (fun e => e.time)
                ≠ (extractTimeEntries text created).1.map (fun e => e.time) then
              [outOfOrderWarning
                ((collectTimeEntries text created).map (fun e => e.time))
                ((extractTimeEntries text created).1.map (fun e => e.time))]
            else []))
    ∧ ((extractTimeEntries ("1420 Lunch\n0637 Woke up\n1053 Coffee").toList
          ("2024-01-15T06:37:00Z").toList).1.map (fun e => e.time)
        = [("06:37").toList, ("10:53").toList, ("14:20").toList]
      ∧ (extractTimeEntries ("1420 Lunch\n0637 Woke up\n1053 Coffee").toList
          ("2024-01-15T06:37:00Z").toList).2
        = [outOfOrderWarning
            [("14:20").toList, ("06:37").toList, ("10:53").toList]
            [("06:37").toList, ("10:53").toList, ("14:20").toList]]) := by
  refine ⟨fun text created => ⟨?_, ?_, rfl⟩, by decide, by decide⟩
  · exact List.sorted_insertionSort teLe (collectTimeEntries text created)
  · exact List.perm_insertionSort teLe (collectTimeEntries text created)

/-- C7: `can_parse` accepts a note exactly when at least two lines of its
text match the time-code pattern with a valid code, where a 3-digit code
splits 1+2, a 4-digit code splits 2+2, and validity means hours at most 23
and minutes at most 59. -/
theorem timeEntry_canParse_iff_two_valid_lines :
    (∀ n : Note,
        timeEntryCanParse n = true ↔
          2 ≤ (splitNL (pystrip n.text)).countP timeEntryLineOk)
    ∧ (∀ tc : Str,
        isValidTimeCode tc = true ↔
          ((tc.length = 3 ∨ tc.length = 4)
            ∧ digitsToNat (tc.take (tc.length - 2)) ≤ 23
            ∧ digitsToNat (tc.drop (tc.length - 2)) ≤ 59)) := by
  constructor
  · intro n
    by_cases h : n.text.isEmpty
    · have hnil : n.text = [] := by simpa using h
      rw [timeEntryCanParse, if_pos h, hnil]
      decide
    · rw [timeEntryCanParse, if_neg h]
      exact decide_eq_true_iff
  · intro tc
    by_cases h3 : tc.length = 3
    · rw [isValidTimeCode, if_pos h3, h3]
      simp [decide_eq_true_iff]
    · by_cases h4 : tc.length = 4
      · rw [isValidTimeCode, if_neg h3, if_pos h4, h4]
        simp [decide_eq_true_iff, h3]
      · rw [isValidTimeCode, if_neg h3, if_neg h4]
        simp [h3, h4]

/-- C8: `parse` collects all HN item-URL matches from the title first and
then from the text, keeping duplicates, and takes the primary url and item
id from the first match overall; on the example note with one link in the
title and one in the body, `hn_links` has length 2 with the title's link
first, and the primary url and item id come from the title. -/
theorem hn_links_title_first_and_primary :
    (∀ n : Note,
        (hnParse n).hn_links = extractHNUrls n.title ++ extractHNUrls n.text
        ∧ (hnParse n).url = (((hnParse n).hn_links.head?).map HNLink.url).getD []
        ∧ (hnParse n).item_id = (((hnParse n).hn_links.head?).map HNLink.item_id).getD [])
    ∧ ((hnParse hnNote).url = ("https://news.ycombinator.com/item?id=11111").toList
      ∧ (hnParse hnNote).item_id = ("11111").toList
      ∧ (hnParse hnNote).hn_links =
          [⟨("https://news.ycombinator.com/item?id=11111").toList, ("11111").toList⟩,
           ⟨("https://news.ycombinator.com/item?id=22222").toList, ("22222").toList⟩]) := by
  refine ⟨fun n => ⟨rfl, ?_, ?_⟩, by decide, by decide, by decide⟩
  · cases h : extractHNUrlsFromTitleAndBody n.title n.text with
    | nil => simp [hnParse, h]
    | cons l ls => simp [hnParse, h]
  · cases h : extractHNUrlsFromTitleAndBody n.title n.text with
    | nil => simp [hnParse, h]
    | cons l ls => simp [hnParse, h]

/-- Elements produced by the seen-set deduplication are exactly the unseen
input elements. -/
theorem mem_dedupLinksAux :
    ∀ (l seen : List Str) (u : Str),
      u ∈ dedupLinksAux seen l ↔ (u ∈ l ∧ u ∉ seen) := by
  intro l
  induction l with
  | nil => intro seen u; simp [dedupLinksAux]
  | cons x xs ih =>
    intro seen u
    by_cases hx : x ∈ seen
    · rw [dedupLinksAux, if_pos (List.elem_iff.mpr hx), ih]
      constructor
      · rintro ⟨hu, hs⟩
        exact ⟨List.mem_cons_of_mem _ hu, hs⟩
      · rintro ⟨hu, hs⟩
        rcases List.mem_cons.mp hu with rfl | hu
        · exact absurd hx hs
        · exact ⟨hu, hs⟩
    · rw [dedupLinksAux, if_neg (fun hc => hx (List.elem_iff.mp hc))]
      simp only [List.mem_cons, ih]
      constructor
      · rintro (rfl | ⟨hu, hs⟩)
        · exact ⟨Or.inl rfl, hx⟩
        · exact ⟨Or.inr hu, fun hc => hs (Or.inr hc)⟩
      · rintro ⟨rfl | hu, hs⟩
        · exact Or.inl rfl
        · by_cases hux : u = x
          · exact Or.inl hux
          · exact Or.inr ⟨hu, fun hc => hc.elim hux hs⟩

/-- The seen-set deduplication loop computes the first-seen-order projection
of the not-yet-seen elements. -/
theorem dedupLinksAux_eq_firstSeenOrder :
    ∀ (l seen : List Str),
      dedupLinksAux seen l = firstSeenOrder (l.filter (fun y => !(seen.contains y))) := by
  intro l
  induction l with
  | nil => intro seen; simp [dedupLinksAux, firstSeenOrder]
  | cons x xs ih =>
    intro seen
    by_cases hx : seen.contains x
    · rw [dedupLinksAux, if_pos hx, ih]
      congr 1
      simp [List.filter_cons, List.elem_iff.mp hx]
    · have hxm : x ∉ seen := fun h => hx (List.elem_iff.mpr h)
      rw [dedupLinksAux, if_neg hx, ih]
      rw [show List.filter (fun y => !(seen.contains y)) (x :: xs)
            = x :: List.filter (fun y => !(seen.contains y)) xs from by
          simp [List.filter_cons, hxm]]
      rw [firstSeenOrder, List.filter_filter]
      congr 2
      apply List.filter_congr
      intro y _
      by_cases hyx : y = x
      · subst hyx
        simp [List.contains_cons]
      · simp [List.contains_cons, hyx]

/-- The deduplication loop never emits a duplicate. -/
theorem dedupLinksAux_nodup : ∀ (l seen : List Str), (dedupLinksAux seen l).Nodup := by
  intro l
  induction l with
  | nil => intro seen; simp [dedupLinksAux]
  | cons x xs ih =>
    intro seen
    by_cases hx : seen.contains x
    · rw [dedupLinksAux, if_pos hx]
      exact ih seen
    · rw [dedupLinksAux, if_neg hx]
      refine List.nodup_cons.mpr ⟨fun hmem => ?_, ih (x :: seen)⟩
      have h := (mem_dedupLinksAux xs (x :: seen) x).mp hmem
      exact h.2 (List.mem_cons_self x seen)

/-- C9: the Generic extractor's link list is duplicate-free, contains
exactly the URL matches of the text, and lists them in first-seen order; on
the spec's example text the repeated URL is kept once. -/
theorem extractLinks_dedup_first_seen :
    (∀ text : Str,
        extractLinks text = firstSeenOrder (allURLMatches text)
        ∧ (extractLinks text).Nodup
        ∧ (∀ u, u ∈ extractLinks text ↔ u ∈ allURLMatches text))
    ∧ extractLinks ("https://a.com and https://a.com again").toList
        = [("https://a.com").toList] := by
  refine ⟨fun text => ⟨?_, dedupLinksAux_nodup _ [], ?_⟩, by decide⟩
  · rw [extractLinks, dedupLinksAux_eq_firstSeenOrder]
    congr 1
    simp
  · intro u
    rw [extractLinks, mem_dedupLinksAux]
    simp

/-- C1: whenever `parse` selects an extractor, it validates the extracted
record against that extractor's own schema through the validator oracle:
when the oracle reports a message, `parse` fails with a schema violation
carrying exactly that message, and `parse` returns a record only when that
record is the selected extractor's output and the oracle accepted it. -/
theorem registryParse_validates_against_selected_schema :
    ∀ (validate : SchemaId → ParsedRecord → Option Str)
      (regs : List Extractor) (n : Note) (ex : Extractor),
      getParser regs n = some ex →
      ((∀ msg, validate ex.schemaId (ex.extract n) = some msg →
          registryParse validate regs n
            = Except.error (RegistryError.schemaViolation msg))
        ∧ (∀ r, registryParse validate regs n = Except.ok r →
            r = ex.extract n ∧ validate ex.schemaId r = none)) := by
  intro validate regs n ex hsel
  constructor
  · intro msg hmsg
    rw [registryParse, hsel]
    simp [hmsg]
  · intro r hr
    rw [registryParse, hsel] at hr
    cases hv : validate ex.schemaId (ex.extract n) with
    | some msg => simp [hv] at hr
    | none =>
      simp only [hv] at hr
      cases hr
      exact ⟨rfl, hv⟩

/-- Witness for C1: on the two-link HN note, the main registry selects the
HackerNews extractor; an always-rejecting oracle makes `parse` fail with the
oracle's message, and an always-accepting oracle makes it return the
extractor's record. -/
theorem registryParse_validates_witness :
    registryParse (fun _ _ => some (("boom").toList)) mainExtractors hnNote
      = Except.error (RegistryError.schemaViolation (("boom").toList))
    ∧ registryParse (fun _ _ => none) mainExtractors hnNote
      = Except.ok (hnExtractor.extract hnNote) := by
  constructor
  · exact (registryParse_validates_against_selected_schema
      (fun _ _ => some (("boom").toList)) mainExtractors hnNote hnExtractor rfl).1
      (("boom").toList) rfl
  · have h := (registryParse_validates_against_selected_schema
      (fun _ _ => none) mainExtractors hnNote hnExtractor rfl)
    rw [registryParse]
    rfl

/-- C2: `get_parser` returns the first registered extractor, in registration
order, whose `can_parse` accepts the note, and when no registered
extractor's `can_parse` accepts it, selection yields nothing and `parse`
fails with the no-matching-extractor error. -/
theorem getParser_first_match_in_registration_order :
    ∀ (regs : List Extractor) (n : Note),
      (∀ ex, getParser regs n = some ex →
        ∃ i : Nat, regs[i]? = some ex ∧ ex.canHandle n = true
          ∧ ∀ j : Nat, j < i → ∀ ex2 : Extractor,
              regs[j]? = some ex2 → ex2.canHandle n = false)
      ∧ ((∀ ex ∈ regs, ex.canHandle n = false) →
          getParser regs n = none
          ∧ ∀ validate, registryParse validate regs n
              = Except.error RegistryError.noMatchingExtractor) := by
  intro regs n
  induction regs with
  | nil =>
    constructor
    · intro ex hex
      cases hex
    · intro _
      exact ⟨rfl, fun validate => rfl⟩
  | cons p ps ih =>
    constructor
    · intro ex hex
      by_cases hp : p.canHandle n
      · rw [getParser, if_pos hp] at hex
        cases hex
        exact ⟨0, List.getElem?_cons_zero, hp, fun j hj => by omega⟩
      · rw [getParser, if_neg hp] at hex
        obtain ⟨i, hi, hcan, hbefore⟩ := ih.1 ex hex
        refine ⟨i + 1, by simpa using hi, hcan, ?_⟩
        intro j hj ex2 hex2
        cases j with
        | zero =>
          rw [List.getElem?_cons_zero] at hex2
          cases hex2
          exact Bool.eq_false_iff.mpr hp
        | succ k =>
          rw [List.getElem?_cons_succ] at hex2
          exact hbefore k (by omega) ex2 hex2
    · intro hall
      have hp : p.canHandle n = false := hall p (List.mem_cons_self p ps)
      have hps := (ih.2 (fun ex hex => hall ex (List.mem_cons_of_mem p hex))).1
      have hnone : getParser (p :: ps) n = none := by
        rw [getParser, if_neg (by simp [hp]), hps]
      refine ⟨hnone, fun validate => ?_⟩
      rw [registryParse, hnone]

/-- Witness for C2: on a singleton registry holding the HackerNews
extractor and the two-link HN note, selection returns that extractor at
index 0; and on the empty-text note every extractor of that singleton
registry declines, so `parse` reports no matching extractor. -/
theorem getParser_first_match_witness :
    (∃ i : Nat, [hnExtractor][i]? = some hnExtractor
      ∧ hnExtractor.canHandle hnNote = true
      ∧ ∀ j : Nat, j < i → ∀ ex2 : Extractor, [hnExtractor][j]? = some ex2
          → ex2.canHandle hnNote = false)
    ∧ registryParse (fun _ _ => none) [timeEntryExtractor] emptyNote
        = Except.error RegistryError.noMatchingExtractor := by
  constructor
  · exact (getParser_first_match_in_registration_order [hnExtractor] hnNote).1
      hnExtractor rfl
  · refine ((getParser_first_match_in_registration_order
      [timeEntryExtractor] emptyNote).2 ?_).2 (fun _ _ => none)
    intro ex hex
    rcases List.mem_singleton.mp hex with rfl
    rfl

/-- C10: the batch driver registers exactly the HackerNews, TimeEntry and
Training extractors (no Generic catch-all), and on the mapping-shaped note
with empty text — which the Generic extractor would accept — `parse` fails
with the no-matching-extractor error for every validator oracle. -/
theorem mainRegistry_noMatchingExtractor_on_empty_note :
    mainExtractors = [hnExtractor, timeEntryExtractor, trainingExtractor]
    ∧ mainExtractors.map Extractor.schemaId
        = [SchemaId.hackernews, SchemaId.timeEntry, SchemaId.training]
    ∧ genericCanParse emptyNote = true
    ∧ ∀ validate, registryParse validate mainExtractors emptyNote
        = Except.error RegistryError.noMatchingExtractor := by
  refine ⟨rfl, rfl, rfl, fun validate => ?_⟩
  have hnone : getParser mainExtractors emptyNote = none := rfl
  rw [registryParse, hnone]

/-- A successful `find?` splits the list at the found element, with every
earlier element failing the predicate: first match in list order. -/
theorem find?_eq_some_split {α : Type} (pred : α → Bool) :
    ∀ (l : List α) (a : α), l.find? pred = some a →
      pred a = true
        ∧ ∃ pre post, l = pre ++ a :: post ∧ ∀ b ∈ pre, pred b = false := by
  intro l
  induction l with
  | nil => intro a h; cases h
  | cons x xs ih =>
    intro a h
    by_cases hx : pred x
    · rw [List.find?_cons_of_pos _ hx] at h
      cases h
      exact ⟨hx, [], xs, rfl, by simp⟩
    · rw [List.find?_cons_of_neg _ hx] at h
      obtain ⟨ha, pre, post, heq, hpre⟩ := ih a h
      refine ⟨ha, x :: pre, post, by rw [heq]; rfl, ?_⟩
      intro b hb
      rcases List.mem_cons.mp hb with rfl | hb
      · exact Bool.eq_false_iff.mpr hx
      · exact hpre b hb

/-- The dictionary update of `_extract_exercises` always leaves an entry
under the attributed abbreviation whose set list ends with the sets of the
current line. -/
theorem updateExercisesDict_find :
    ∀ (d : List (Str × ExerciseData)) (abbr full_name : Str)
      (sets : List SetData) (line : Str),
      ∃ e : ExerciseData,
        (updateExercisesDict d abbr full_name sets line).find?
            (fun kv => kv.1 == abbr) = some (abbr, e)
        ∧ sets.IsSuffix e.sets := by
  intro d
  induction d with
  | nil =>
    intro abbr fn sets line
    refine ⟨⟨fn, abbr, sets, sets.length, pystrip line⟩, ?_, List.suffix_refl sets⟩
    rw [updateExercisesDict]
    rw [List.find?_cons_of_pos _ (by simp)]
  | cons kv rest ih =>
    intro abbr fn sets line
    obtain ⟨k, e⟩ := kv
    by_cases hk : k = abbr
    · subst hk
      rw [updateExercisesDict, if_pos rfl]
      exact ⟨_, by rw [List.find?_cons_of_pos _ (by simp)],
        List.suffix_append e.sets sets⟩
    · rw [updateExercisesDict, if_neg hk]
      obtain ⟨e', he', hsuf⟩ := ih abbr fn sets line
      refine ⟨e', ?_, hsuf⟩
      rw [List.find?_cons_of_neg _ (by simp [hk]), he']

/-- C4: on a line where the abbreviation table has a match, the winner is
the first matching entry in table-declaration order (every earlier table
entry fails on the line, regardless of textual positions), the winner
becomes the current exercise, and all set-triples of the line are appended
to the winner's record; the ambiguous line `Row and Press 3x8x100` yields
exactly one exercise record, owned by `Row`. -/
theorem training_first_table_abbr_wins :
    (∀ (line : Str) (p : Str × Str),
        2 ≤ EXERCISE_PATTERNS.countP (fun q => hasAbbrMatch q.1 line) →
        findFirstAbbr line = some p →
        (hasAbbrMatch p.1 line = true
          ∧ (∃ pre post, EXERCISE_PATTERNS = pre ++ p :: post
              ∧ ∀ q ∈ pre, hasAbbrMatch q.1 line = false)
          ∧ ∀ st : TrainState, extractSets line ≠ [] →
              (processLine st line).current_exercise = some p.1
              ∧ ∃ e : ExerciseData,
                  (processLine st line).exercises_dict.find?
                      (fun kv => kv.1 == p.1) = some (p.1, e)
                  ∧ (extractSets line).IsSuffix e.sets))
    ∧ (extractExercises ("Row and Press 3x8x100").toList).length = 1
    ∧ (extractExercises ("Row and Press 3x8x100").toList).map
        (fun e => e.abbreviation) = [("Row").toList] := by
  refine ⟨fun line p _hcount hfind => ?_, by decide, by decide⟩
  have hfind' := hfind
  rw [findFirstAbbr] at hfind'
  obtain ⟨hpred, pre, post, heq, hpre⟩ := find?_eq_some_split _ EXERCISE_PATTERNS p hfind'
  refine ⟨hpred, ⟨pre, post, heq, hpre⟩, ?_⟩
  intro st hsets
  have hse : (extractSets line).isEmpty = false := by
    cases h' : extractSets line with
    | nil => exact absurd h' hsets
    | cons a as => rfl
  constructor
  · simp [processLine, hfind, hse]
  · simp only [processLine, hfind, hse]
    simp only [Bool.false_and, Bool.and_false, if_neg, Option.isNone_some, ite_false]
    exact updateExercisesDict_find st.exercises_dict p.1 (lookupFullName p.1)
      (extractSets line) line

/-- Witness for C4: the ambiguous example line has two table matches (Row
and Press); the scan applied to it from the initial state records the sets
under Row and carries Row as current exercise. -/
theorem training_first_table_abbr_wins_witness :
    2 ≤ EXERCISE_PATTERNS.countP
        (fun q => hasAbbrMatch q.1 ("Row and Press 3x8x100").toList)
    ∧ ((processLine initTrainState ("Row and Press 3x8x100").toList).current_exercise
        = some ("Row").toList
      ∧ ∃ e : ExerciseData,
          (processLine initTrainState ("Row and Press 3x8x100").toList).exercises_dict.find?
              (fun kv => kv.1 == ("Row").toList)
            = some (("Row").toList, e)
          ∧ (extractSets ("Row and Press 3x8x100").toList).IsSuffix e.sets) := by
  refine ⟨by decide, ?_⟩
  exact ((training_first_table_abbr_wins.1 ("Row and Press 3x8x100").toList
      ((("Row").toList, ("Row").toList)) (by decide) (by decide)).2.2
    initTrainState (by decide))

/-- `previous_indent` is updated only by an abbreviation-table match:
lines without a match — whether or not they carry set-triples — leave it
unchanged. -/
theorem processLine_previous_indent :
    ∀ (st : TrainState) (line : Str),
      (processLine st line).previous_indent
        = if (findFirstAbbr line).isSome then leadingWs line
          else st.previous_indent := by
  intro st line
  cases hm : findFirstAbbr line with
  | none =>
    by_cases hs : (extractSets line).isEmpty
    · simp [processLine, hm, hs]
      split <;> rfl
    · simp [processLine, hm, hs]
      split <;> rfl
  | some p =>
    by_cases hs : (extractSets line).isEmpty <;> simp [processLine, hm, hs]

/-- C6 (amended): throughout the scan, `previous_indent` equals the
leading-whitespace count of the most recent line that matched an
abbreviation-table entry (0 before any match); lines that merely contribute
set-triples to an exercise do not update it. -/
theorem previousIndent_eq_last_abbr_indent :
    ∀ lines : List Str, (runTrainLines lines).previous_indent = lastAbbrIndent lines := by
  intro lines
  induction lines using List.reverseRecOn with
  | nil => rfl
  | append_singleton ls l ih =>
    rw [runTrainLines, List.foldl_append]
    have hstep : List.foldl processLine (List.foldl processLine initTrainState ls) [l]
        = processLine (runTrainLines ls) l := rfl
    rw [hstep, processLine_previous_indent]
    cases hm : (findFirstAbbr l).isSome with
    | true =>
      rw [if_pos rfl]
      rw [lastAbbrIndent, List.filter_append]
      rw [show List.filter (fun l2 => (findFirstAbbr l2).isSome) [l] = [l] from by
        simp [List.filter_cons, hm]]
      rw [List.getLast?_concat]
    | false =>
      rw [if_neg (by simp [hm]), ih]
      rw [lastAbbrIndent, lastAbbrIndent, List.filter_append]
      rw [show List.filter (fun l2 => (findFirstAbbr l2).isSome) [l] = [] from by
        simp [List.filter_cons, hm]]
      rw [List.append_nil]

/-- C6 counterexample: after the two lines `Bp 3x8x100` and an indented
`2x2x2` continuation (whose sets are attributed to Bp), the spec's claimed
state value is 2 — the indent of the most recent line that continued the
exercise context — but the code's `previous_indent` is still 0, the indent
of the most recent abbreviation match. -/
theorem training_lastIndent_claim_cex :
    claimLastContextIndent [("Bp 3x8x100").toList, ("  2x2x2").toList] = 2
    ∧ (runTrainLines
        [("Bp 3x8x100").toList, ("  2x2x2").toList]).exercises_dict.map
          (fun kv => (kv.1, kv.2.sets.length)) = [(("Bp").toList, 2)]
    ∧ (runTrainLines [("Bp 3x8x100").toList, ("  2x2x2").toList]).previous_indent = 0
    ∧ (runTrainLines [("Bp 3x8x100").toList, ("  2x2x2").toList]).previous_indent
        ≠ claimLastContextIndent [("Bp 3x8x100").toList, ("  2x2x2").toList] := by
  exact ⟨by decide, by decide, by decide, by decide⟩

/-- A conditional-append fold is the filter-map of its input list. -/
theorem foldl_if_append_eq_filter_map {α β : Type} (p : α → Prop) [DecidablePred p]
    (f : α → β) :
    ∀ (l : List α) (acc : List β),
      l.foldl (fun acc2 m => if p m then acc2 ++ [f m] else acc2) acc
        = acc ++ (l.filter (fun m => decide (p m))).map f := by
  intro l
  induction l with
  | nil => intro acc; simp
  | cons x xs ih =>
    intro acc
    by_cases hx : p x
    · rw [List.foldl_cons, if_pos hx, ih]
      simp [hx]
    · rw [List.foldl_cons, if_neg hx, ih]
      simp [hx]

/-- C5 (amended): a completed activity pairing a matched timestamp with its
source line is captured exactly when the matched timestamp string differs
verbatim from the creation timestamp after the creation timestamp alone is
truncated at sub-second precision with its space separator normalized to
`T`; the matched string itself is not normalized before the comparison. -/
theorem matchedActivities_eq_filter_map :
    ∀ text created : Str,
      matchedActivities text created
        = ((scanTimestamps text).filter
              (fun m => decide (m.str ≠ normalizeTimestamp created))).map
            (fun m => ⟨m.str, sourceLineOf text m⟩) := by
  intro text created
  have h := foldl_if_append_eq_filter_map
    (fun m : TSMatch => m.str ≠ normalizeTimestamp created)
    (fun m : TSMatch => (⟨m.str, sourceLineOf text m⟩ : CompletedActivity))
    (scanTimestamps text) []
  simpa [matchedActivities] using h

/-- C5 counterexample: with creation timestamp `2024-01-15 10:00:00` (space
separator, no sub-seconds) and the very same string embedded in the text,
the normalized forms of the match and of the creation timestamp coincide —
so under the claim's both-sides normalization the match must not be
captured — yet the code captures it, because only the creation side is
normalized and the space-form match differs verbatim from the `T`-form
normalized creation timestamp. -/
theorem training_completed_activity_claim_cex :
    scanTimestamps (("2024-01-15 10:00:00").toList)
      = [⟨("2024-01-15 10:00:00").toList, 0, 19⟩]
    ∧ normalizeTimestamp (("2024-01-15 10:00:00").toList)
        = normalizeTimestamp (("2024-01-15 10:00:00").toList)
    ∧ matchedActivities (("2024-01-15 10:00:00").toList)
          (("2024-01-15 10:00:00").toList)
        = [⟨("2024-01-15 10:00:00").toList, ("2024-01-15 10:00:00").toList⟩] := by
  exact ⟨by decide, rfl, by decide⟩
